import Mathlib

/-!
# Verification of the NSCLC image-ingestion pipeline

Shallow embedding of the image-ingestion-and-normalization pipeline of
`backend/services/image_processor.py` (class `ImageProcessor`) and the
temporary-file handling of the upload boundary in `backend/main.py`.

Modelling conventions:
* numpy arrays are `List (List ℚ)` (float arrays) or `List (List ℕ)`
  (uint8 arrays); numpy elementwise operations become `List.map`.
* float arithmetic is modelled by exact rational arithmetic `ℚ`.
  Rational division by zero yields Lean's junk value `0`; in the float
  source, division of a clipped value by a zero window range yields NaN
  (see `apply_window_level` and claim C2).
* file I/O results (`pydicom.dcmread`, `PIL.Image.open`) are passed in as
  explicit values; a fallible library call becomes an `Except` value.
* `raise` / Python exceptions become `Except String`.
-/

set_option autoImplicit false
set_option maxRecDepth 16384

namespace ImageProc

/-! ## Numeric primitives -/

/-- `float.astype(np.uint8)`: truncation toward zero, wrapped modulo 256.
(For the in-range values `0 ≤ x ≤ 255` arising in the pipeline this is
just `⌊x⌋`; the wrap models the out-of-range C cast behaviour.) -/
def toUint8 (x : ℚ) : ℕ :=
  ((if 0 ≤ x then ⌊x⌋ else -⌊-x⌋) % 256).toNat

/-- `np.clip(x, lo, hi)` on a single sample: `min(hi, max(x, lo))`
(numpy applies the lower bound first, then the upper bound). -/
def npClip (x lo hi : ℚ) : ℚ := min hi (max x lo)

/-- `np.max` over a 1-D value list; raises (`none`) on an empty array. -/
def npMax (l : List ℚ) : Option ℚ :=
  match l with
  | [] => none
  | x :: xs => some (xs.foldl max x)

/-- `np.min` over a 1-D value list; raises (`none`) on an empty array. -/
def npMin (l : List ℚ) : Option ℚ :=
  match l with
  | [] => none
  | x :: xs => some (xs.foldl min x)

/-- All samples of a 2-D array in row-major order. -/
def matVals (img : List (List ℚ)) : List ℚ := img.flatten

/-- OpenCV `cvRound`: round to nearest, ties to even (banker's rounding). -/
def cvRound (x : ℚ) : ℤ :=
  if x - ⌊x⌋ = 1 / 2 then (if Even ⌊x⌋ then ⌊x⌋ else ⌊x⌋ + 1) else round x

/-! ## `ImageProcessor._apply_window_level` (image_processor.py 133-141) -/

/-- One sample of `_apply_window_level`:
`min_val = center - width/2`, `max_val = center + width/2`,
clip to `[min_val, max_val]`, rescale by
`(v - min_val)/(max_val - min_val) * 255`, cast to uint8.
With `width = 0` the float source divides zero by zero, yielding NaN;
the ℚ model yields the junk value `0` there (claim C2). -/
def windowPixel (center width x : ℚ) : ℕ :=
  let min_val := center - width / 2
  let max_val := center + width / 2
  toUint8 ((npClip x min_val max_val - min_val) / (max_val - min_val) * 255)

/-- `_apply_window_level` on a 2-D array: the numpy expression is
elementwise, so the embedding maps `windowPixel` over the matrix. -/
def apply_window_level (image : List (List ℚ)) (center width : ℚ) : List (List ℕ) :=
  image.map (fun row => row.map (windowPixel center width))

/-! ## `ImageProcessor._read_dicom` (image_processor.py 79-110) -/

/-- A DICOM numeric attribute value: pydicom hands back either a plain
scalar or a list-like `MultiValue` (the `isinstance(x, (list, MultiValue))`
check in the source). -/
inductive DSNum where
  | scalar (v : ℚ)
  | multi (vs : List ℚ)
deriving DecidableEq

/-- The `window_center = window_center[0]` resolution step: a list-like
value is replaced by its first element, a scalar is kept.
(Python raises IndexError on an empty list; `headI` returns the junk
value `0` there — no claim touches the empty case.) -/
def resolveFirst (n : DSNum) : ℚ :=
  match n with
  | .scalar v => v
  | .multi vs => vs.headI

/-- The parsed DICOM dataset fields `_read_dicom` consumes: the optional
`PhotometricInterpretation`, `WindowCenter` and `WindowWidth` attributes
(absent attribute = `none`, mirroring `hasattr`) and `ds.pixel_array`. -/
structure DicomDS where
  photometricInterpretation : Option String
  windowCenter : Option DSNum
  windowWidth : Option DSNum
  pixelData : List (List ℚ)

/-- `_read_dicom` after `pydicom.dcmread` succeeded:
1. take `ds.pixel_array`;
2. if `PhotometricInterpretation == 'MONOCHROME1'`, invert
   elementwise via `np.max(pixel_array) - pixel_array`;
3. if both `WindowCenter` and `WindowWidth` are present, resolve each
   to its first value and apply `_apply_window_level` (the uint8 result
   re-enters the float world downstream, hence the cast back to ℚ). -/
def read_dicom (ds : DicomDS) : Except String (List (List ℚ)) := do
  let px := ds.pixelData
  let px2 ← match ds.photometricInterpretation with
    | some interp =>
        if interp = "MONOCHROME1" then
          match npMax (matVals px) with
          | some m => Except.ok (px.map (fun r => r.map (fun v => m - v)))
          | none => Except.error "zero-size array to reduction operation maximum"
        else Except.ok px
    | none => Except.ok px
  match ds.windowCenter, ds.windowWidth with
  | some wc, some ww =>
      Except.ok ((apply_window_level px2 (resolveFirst wc) (resolveFirst ww)).map
        (fun r => r.map (fun v => (Nat.cast v : ℚ))))
  | _, _ => Except.ok px2

/-! ## `ImageProcessor._read_standard_image` (image_processor.py 112-131) -/

/-- `_read_standard_image` after PIL opened the file and converted it to
single-channel mode L: the resulting uint8 luminance grid, as the float
matrix it becomes downstream. -/
def read_standard_image (gray : List (List ℕ)) : List (List ℚ) :=
  gray.map (fun r => r.map (fun v => (Nat.cast v : ℚ)))

/-! ## `ImageProcessor._normalize_ct_image` (image_processor.py 143-166) -/

/-- Histogram bin of `cv2.equalizeHist`: how many samples hold value `v`. -/
def matCount (img : List (List ℕ)) (v : ℕ) : ℕ :=
  (img.map (fun r => r.count v)).sum

/-- `src.total()`: number of samples of the array. -/
def matTotal (img : List (List ℕ)) : ℕ := (img.map List.length).sum

/-- Cumulative histogram `∑ hist[i]` for `lo ≤ i ≤ v`. -/
def cumCount (img : List (List ℕ)) (lo v : ℕ) : ℕ :=
  ((List.range' lo (v + 1 - lo)).map (matCount img)).sum

/-- `cv2.equalizeHist`, following the OpenCV implementation: find the
first non-empty histogram bin `i0`; if it contains every sample the
image is constant and is mapped to the constant `i0`; otherwise build
the lookup table `lut[v] = saturate(cvRound(cdf(v) * 255/(total - hist[i0])))`
with `lut[i0] = 0` (bins below `i0` are empty, so their entries are
never consulted; the model sends them to 0). -/
def equalizeHist (img : List (List ℕ)) : List (List ℕ) :=
  match (List.range 256).find? (fun v => matCount img v != 0) with
  | none => img
  | some i0 =>
      if matCount img i0 = matTotal img then
        img.map (fun r => r.map (fun _ => i0))
      else
        let scale : ℚ := 255 / ((matTotal img : ℚ) - (matCount img i0 : ℚ))
        img.map (fun r => r.map (fun v =>
          if v ≤ i0 then 0
          else min ((cvRound ((cumCount img (i0 + 1) v : ℚ) * scale)).toNat) 255))

/-- OpenCV `borderInterpolate` with the default `BORDER_REFLECT_101`,
for the offsets `-1 ≤ p ≤ len` a 3×3 kernel can produce (a length-1
axis is special-cased to index 0, as in OpenCV). -/
def borderReflect101 (p : ℤ) (len : ℕ) : ℕ :=
  if len = 1 then 0
  else if p < 0 then (-p).toNat
  else if (len : ℤ) ≤ p then (2 * len - 2 - p).toNat
  else p.toNat

/-- Pixel fetch with border replication for the blur. -/
def getPx (img : List (List ℕ)) (y x : ℤ) : ℕ :=
  let row := img.getD (borderReflect101 y img.length) []
  row.getD (borderReflect101 x row.length) 0

/-- The 1-D kernel of `cv2.GaussianBlur(img, (3, 3), 0)`: with sigma 0 and
ksize 3 OpenCV uses the fixed small-kernel tab `[1/4, 1/2, 1/4]`. -/
def gKern : List ℚ := [1 / 4, 1 / 2, 1 / 4]

/-- One output sample of the 3×3 Gaussian blur: the exact rational
convolution, rounded to nearest and saturated to uint8 (OpenCV computes
this in fixed point; on the inputs of the theorems below the two agree). -/
def blurAt (img : List (List ℕ)) (y x : ℕ) : ℕ :=
  let s : ℚ :=
    ((List.range 3).map (fun i =>
      ((List.range 3).map (fun j =>
        gKern.getD i 0 * gKern.getD j 0 *
          (getPx img ((y : ℤ) + (i : ℤ) - 1) ((x : ℤ) + (j : ℤ) - 1) : ℚ))).sum)).sum
  min (cvRound s).toNat 255

/-- `cv2.GaussianBlur(img, (3, 3), 0)` with default border handling. -/
def gaussianBlur3 (img : List (List ℕ)) : List (List ℕ) :=
  (List.range img.length).map (fun y =>
    (List.range ((img.getD y []).length)).map (fun x => blurAt img y x))

/-- `_normalize_ct_image`:
cast to float32; min/max stretch to `[0,255]` when `max > min`, else
`np.zeros_like`; cast to uint8; `cv2.equalizeHist`; 3×3 Gaussian blur.
`np.max`/`np.min` on a zero-size array raise, hence the `Except`.
(The `len(image.shape) > 2` channel-reduction branch does not apply to
the 2-D matrices of this model.) -/
def normalize_ct_image (image : List (List ℚ)) : Except String (List (List ℕ)) :=
  match npMax (matVals image), npMin (matVals image) with
  | some mx, some mn =>
      let stretched :=
        if mn < mx then
          image.map (fun r => r.map (fun x => (x - mn) / (mx - mn) * 255))
        else
          image.map (fun r => r.map (fun _ => (0 : ℚ)))
      let image_uint8 := stretched.map (fun r => r.map toUint8)
      Except.ok (gaussianBlur3 (equalizeHist image_uint8))
  | _, _ => Except.error "zero-size array to reduction operation"

/-! ## PNG and base64 encoding (`ImageProcessor._pil_to_base64`, 168-174) -/

/-- Big-endian 32-bit encoding of a chunk field. -/
def be32 (n : ℕ) : List ℕ :=
  [n / 2 ^ 24 % 256, n / 2 ^ 16 % 256, n / 2 ^ 8 % 256, n % 256]

/-- The 8-byte PNG file signature. -/
def pngSignature : List ℕ := [137, 80, 78, 71, 13, 10, 26, 10]

/-- Modelled from the spec: the PNG serialization of
`image.save(buffer, format='PNG')` (PIL library code, not in src/).
The IHDR chunk: length 13, type IHDR, width, height, bit depth 8,
grayscale color type 0, standard compression/filter/interlace; the CRC
field is abstracted as zeros. -/
def ihdrChunk (w h : ℕ) : List ℕ :=
  [0, 0, 0, 13] ++ [73, 72, 68, 82] ++ be32 w ++ be32 h ++
    [8, 0, 0, 0, 0] ++ [0, 0, 0, 0]

/-- The IEND chunk (its CRC is the fixed constant AE 42 60 82). -/
def iendChunk : List ℕ := [0, 0, 0, 0, 73, 69, 78, 68, 174, 66, 96, 130]

/-- PIL image size `(width, height)` of a row-major uint8 matrix. -/
def pilSize (img : List (List ℕ)) : ℕ × ℕ := ((img.headD []).length, img.length)

/-- Modelled from the spec: `image.save(buffer, format='PNG')` followed by
`buffer.getvalue()` (PIL library code, not in src/). The byte stream is
signature, IHDR carrying the image dimensions, and IEND; the compressed
IDAT pixel payload is abstracted away — the claims constrain only the
header fields of the stream. -/
def pngEncode (img : List (List ℕ)) : List ℕ :=
  pngSignature ++ ihdrChunk (pilSize img).1 (pilSize img).2 ++ iendChunk

/-- Big-endian 32-bit field decoding. -/
def parseBe32 (l : List ℕ) : ℕ :=
  match l with
  | [a, b, c, d] => ((a * 256 + b) * 256 + c) * 256 + d
  | _ => 0

/-- Width field of a PNG byte stream (bytes 16-19). -/
def pngWidth (b : List ℕ) : ℕ := parseBe32 ((b.drop 16).take 4)

/-- Height field of a PNG byte stream (bytes 20-23). -/
def pngHeight (b : List ℕ) : ℕ := parseBe32 ((b.drop 20).take 4)

/-- A valid PNG byte stream for the purposes of this development:
it starts with the PNG signature followed by a length-13 IHDR chunk. -/
def isPngStream (b : List ℕ) : Prop :=
  b.take 8 = pngSignature ∧ (b.drop 8).take 8 = [0, 0, 0, 13, 73, 72, 68, 82]

instance (b : List ℕ) : Decidable (isPngStream b) := by
  unfold isPngStream; infer_instance

/-- The RFC 4648 base64 alphabet used by `base64.b64encode`. -/
def b64Alphabet : List Char :=
  "ABCDEFGHIJKLMNOPQRSTUVWXYZabcdefghijklmnopqrstuvwxyz0123456789+/".toList

/-- Character of a 6-bit group. -/
def b64Char (n : ℕ) : Char := b64Alphabet.getD n '='

/-- Index of a base64 character, `none` for characters outside the
alphabet (such as the padding sign). -/
def b64Val (c : Char) : Option ℕ := b64Alphabet.findIdx? (fun d => d == c)

/-- `base64.b64encode`: 3 bytes become 4 characters; a 1- or 2-byte tail
is padded. -/
def base64Encode : List ℕ → List Char
  | [] => []
  | [a] => [b64Char (a / 4), b64Char (a % 4 * 16), '=', '=']
  | [a, b] => [b64Char (a / 4), b64Char (a % 4 * 16 + b / 16), b64Char (b % 16 * 4), '=']
  | a :: b :: c :: rest =>
      b64Char (a / 4) :: b64Char (a % 4 * 16 + b / 16) ::
        b64Char (b % 16 * 4 + c / 64) :: b64Char (c % 64) :: base64Encode rest

/-- Strict base64 decoding: quartets of alphabet characters, with the
two padded tail forms (padding only valid at the end); anything else
fails. -/
def base64Decode : List Char → Option (List ℕ)
  | [] => some []
  | c1 :: c2 :: c3 :: c4 :: rest =>
      if c3 = '=' then
        if c4 = '=' ∧ rest = [] then
          match b64Val c1, b64Val c2 with
          | some v1, some v2 => some [v1 * 4 + v2 / 16]
          | _, _ => none
        else none
      else if c4 = '=' then
        if rest = [] then
          match b64Val c1, b64Val c2, b64Val c3 with
          | some v1, some v2, some v3 =>
              some [v1 * 4 + v2 / 16, v2 % 16 * 16 + v3 / 4]
          | _, _, _ => none
        else none
      else
        match b64Val c1, b64Val c2, b64Val c3, b64Val c4, base64Decode rest with
        | some v1, some v2, some v3, some v4, some tail =>
            some ([v1 * 4 + v2 / 16, v2 % 16 * 16 + v3 / 4, v3 % 4 * 64 + v4] ++ tail)
        | _, _, _, _, _ => none
  | _ => none

/-- `_pil_to_base64`: serialize to PNG in memory, base64-encode, and
prefix the data-URI media marker. -/
def pil_to_base64 (img : List (List ℕ)) : String :=
  "data:image/png;base64," ++ String.mk (base64Encode (pngEncode img))

/-! ## `ImageProcessor.read_and_normalize` (image_processor.py 36-63) -/

/-- Modelled from the spec: `pil_image.resize(self.target_size,
Image.Resampling.LANCZOS)` (PIL library code, not in src/). The resampler
always produces the canonical 512×512 grid; per-pixel values are
represented by coordinate-scaled sampling — a simplification of the
Lanczos kernel; no claim constrains the resampled sample values. -/
def resize512 (img : List (List ℕ)) : List (List ℕ) :=
  (List.range 512).map (fun y =>
    (List.range 512).map (fun x =>
      (img.getD (y * img.length / 512) []).getD (x * (img.headD []).length / 512) 0))

/-- The outcome of opening and decoding the input file, which the
orchestrator obtains through `_is_dicom_file` dispatch: a parsed DICOM
dataset, a PIL-decoded grayscale raster, or an unreadable file whose
decode raised. -/
inductive InputFile where
  | dicomFile (ds : DicomDS)
  | rasterFile (gray : List (List ℕ))
  | unreadable (msg : String)

/-- `ImageProcessor.read_and_normalize`: dispatch on the DICOM check,
decode, normalize, resize to `target_size = (512, 512)` when the size
differs, and encode as a base64 data URI. -/
def read_and_normalize (f : InputFile) : Except String String := do
  let image_array ← match f with
    | .dicomFile ds => read_dicom ds
    | .rasterFile gray => Except.ok (read_standard_image gray)
    | .unreadable msg => Except.error msg
  let normalized_image ← normalize_ct_image image_array
  let resized :=
    if pilSize normalized_image ≠ (512, 512) then resize512 normalized_image
    else normalized_image
  Except.ok (pil_to_base64 resized)

/-! ## `ImageProcessor._is_dicom_file` (image_processor.py 65-77) -/

/-- `str.lower` (ASCII model; path extensions are ASCII). -/
def strLower (s : String) : String := String.mk (s.toList.map Char.toLower)

/-- Python `str.rfind` for a single character: highest index, `-1` when
absent. -/
def pyRfind (c : Char) (l : List Char) : ℤ :=
  match l.reverse.findIdx? (fun d => d == c) with
  | none => -1
  | some i => (l.length : ℤ) - 1 - (i : ℤ)

/-- The extension part of `os.path.splitext` (posixpath): the suffix from
the last dot, provided that dot lies after the last separator and the
final path component has at least one non-dot character before it
(leading dots of a filename are not an extension). -/
def splitextExt (p : List Char) : List Char :=
  let sepIndex := pyRfind '/' p
  let dotIndex := pyRfind '.' p
  if sepIndex < dotIndex then
    if (List.range p.length).any (fun j =>
        decide (sepIndex < (j : ℤ)) && decide ((j : ℤ) < dotIndex) &&
          (p.getD j '.' != '.')) then
      p.drop dotIndex.toNat
    else []
  else []

/-- `_is_dicom_file`: fast path on the lower-cased extension, else a
header-only `pydicom.dcmread` whose outcome is the `headerParse`
argument; every parse exception is caught and classified as non-DICOM. -/
def is_dicom_file (filePath : String) (headerParse : Except String DicomDS) : Bool :=
  let ext := splitextExt (strLower filePath).toList
  if ext = ".dcm".toList then true
  else
    match headerParse with
    | .ok _ => true
    | .error _ => false

/-! ## `analyze_image` upload boundary (main.py 168-204) -/

/-- The only externally scoped resource of the handler: whether the
`NamedTemporaryFile(delete=False)` holding the uploaded bytes still
exists on disk. -/
structure TempFileState where
  tmpExists : Bool
deriving DecidableEq

/-- The `finally` block: `if os.path.exists(tmp_file_path):
os.unlink(tmp_file_path)`. -/
def cleanupTempFile (st : TempFileState) : TempFileState :=
  if st.tmpExists then { tmpExists := false } else st

/-- The handler outcome visible to the HTTP client. -/
inductive HTTPResult where
  | success (payload : String)
  | httpError (status : ℕ) (detail : String)
deriving DecidableEq

/-- The `analyze_image` handler from the moment the temporary file holds
the uploaded bytes: run `read_and_normalize` then the vision call inside
the inner `try`, execute the `finally` cleanup on every way out of it,
and translate an escaped exception into an HTTP 500 in the outer
`except`. The two `Except` arguments are the outcomes of the two awaited
calls; the returned state is the temporary file state after the handler
finishes. -/
def analyze_image (processResult : Except String String)
    (visionResult : Except String String) : HTTPResult × TempFileState :=
  let st : TempFileState := { tmpExists := true }
  let inner : Except String String :=
    match processResult with
    | .error e => .error e
    | .ok _ =>
        match visionResult with
        | .error e => .error e
        | .ok r => .ok r
  let st2 := cleanupTempFile st
  match inner with
  | .ok r => (HTTPResult.success r, st2)
  | .error e => (HTTPResult.httpError 500 ("Analysis failed: " ++ e), st2)

/-! ## Helper lemmas -/

/-- A nonempty value list has a maximum. -/
theorem npMax_of_ne_nil (l : List ℚ) (h : l ≠ []) : ∃ m, npMax l = some m := by
  cases l with
  | nil => exact absurd rfl h
  | cons x xs => exact ⟨xs.foldl max x, rfl⟩

/-- The uint8 cast lands in `[0, 255]`. -/
theorem toUint8_le255 (x : ℚ) : toUint8 x ≤ 255 := by
  unfold toUint8
  have h1 : (if 0 ≤ x then ⌊x⌋ else -⌊-x⌋) % 256 < 256 :=
    Int.emod_lt_of_pos _ (by norm_num)
  have h2 : 0 ≤ (if 0 ≤ x then ⌊x⌋ else -⌊-x⌋) % 256 :=
    Int.emod_nonneg _ (by norm_num)
  omega

/-- `toUint8` is the identity on natural samples below 256. -/
theorem toUint8_natCast_le (v : ℕ) (hv : v ≤ 255) : toUint8 (v : ℚ) = v := by
  unfold toUint8
  rw [if_pos (by positivity), Int.floor_natCast]
  omega

theorem toUint8_zero : toUint8 0 = 0 := by
  norm_num [toUint8]

theorem toUint8_255 : toUint8 255 = 255 := by
  norm_num [toUint8]
  rfl

/-- Below the window: a sample at or under `min_val` maps to 0
(for a nonnegative width). -/
theorem wp_below (center width x : ℚ) (hw : 0 ≤ width)
    (hx : x ≤ center - width / 2) : windowPixel center width x = 0 := by
  simp only [windowPixel, npClip]
  rw [max_eq_right hx, min_eq_right (by linarith), sub_self, zero_div, zero_mul]
  exact toUint8_zero

/-- Above the window: a sample at or over `max_val` maps to 255
(for a positive width). -/
theorem wp_above (center width x : ℚ) (hw : 0 < width)
    (hx : center + width / 2 ≤ x) : windowPixel center width x = 255 := by
  simp only [windowPixel, npClip]
  rw [max_eq_left (by linarith), min_eq_left hx]
  have h : center + width / 2 - (center - width / 2) = width := by ring
  rw [h, div_self (ne_of_gt hw), one_mul]
  exact toUint8_255

/-- Inside the window: a sample is rescaled linearly by
`(x - min_val) / width * 255` and cast to uint8. -/
theorem wp_inside (center width x : ℚ)
    (h1 : center - width / 2 ≤ x) (h2 : x ≤ center + width / 2) :
    windowPixel center width x =
      toUint8 ((x - (center - width / 2)) / width * 255) := by
  simp only [windowPixel, npClip]
  rw [max_eq_left h1, min_eq_right h2]
  have h : center + width / 2 - (center - width / 2) = width := by ring
  rw [h]

/-- Windowing with center 127.5 and width 255 is the identity on uint8
samples. -/
theorem windowPixel_fullrange_id (v : ℕ) (hv : v ≤ 255) :
    windowPixel ((0 + 255) / 2) (255 - 0) (v : ℚ) = v := by
  have e1 : ((0 + 255) / 2 : ℚ) - (255 - 0) / 2 = 0 := by norm_num
  have h1 : ((0 + 255) / 2 : ℚ) - (255 - 0) / 2 ≤ (v : ℚ) := by
    rw [e1]; exact Nat.cast_nonneg v
  have h2 : (v : ℚ) ≤ (0 + 255) / 2 + (255 - 0) / 2 := by
    have e2 : ((0 + 255) / 2 : ℚ) + (255 - 0) / 2 = 255 := by norm_num
    rw [e2]; exact_mod_cast hv
  rw [wp_inside _ _ _ h1 h2, e1]
  have h3 : ((v : ℚ) - 0) / (255 - 0) * 255 = v := by
    field_simp
  rw [h3, toUint8_natCast_le v hv]

/-- A row of uint8 samples is fixed by full-range windowing. -/
theorem row_fullrange_id (r : List ℕ) (h : ∀ v ∈ r, v ≤ 255) :
    (r.map (fun v => (Nat.cast v : ℚ))).map (windowPixel ((0 + 255) / 2) (255 - 0)) = r := by
  induction r with
  | nil => rfl
  | cons v vs ih =>
      simp only [List.map_cons, List.cons.injEq]
      exact ⟨windowPixel_fullrange_id v (h v (List.mem_cons_self v vs)),
        ih (fun w hw => h w (List.mem_cons_of_mem v hw))⟩

/-! ## Claim theorems -/

/-- C8. The upload handler `analyze_image` deletes the temporary file
holding the uploaded bytes on every exit path: on success, on a decode
failure of `read_and_normalize`, and on an unexpected exception of the
vision call — the `finally` cleanup runs before the handler returns or
re-raises, so no invocation leaves the temporary file behind. -/
theorem analyze_image_tempfile_deleted
    (processResult visionResult : Except String String) :
    ((analyze_image processResult visionResult).2).tmpExists = false := by
  cases processResult <;> cases visionResult <;> rfl

/-- C6. A multi-valued `WindowCenter`/`WindowWidth` attribute is resolved
to its first element before windowing: decoding a dataset carrying
list-like window attributes gives exactly the same result as decoding an
otherwise-identical dataset carrying the first values as scalars. -/
theorem read_dicom_multivalue_first
    (pm : Option String) (px : List (List ℚ))
    (c w : ℚ) (cs ws : List ℚ) :
    read_dicom ⟨pm, some (.multi (c :: cs)), some (.multi (w :: ws)), px⟩ =
      read_dicom ⟨pm, some (.scalar c), some (.scalar w), px⟩ := by
  simp [read_dicom, resolveFirst]

/-- The DICOM dataset of claim C2: windowing attributes present with
`WindowWidth = 0`, two distinct pixel values. -/
def dsWidthZero : DicomDS :=
  ⟨none, some (.scalar 100), some (.scalar 0), [[0, 200]]⟩

/-- C2 (code bug). On a dataset whose windowing attributes are present
with width 0, `_read_dicom` neither raises a `DecodeError`, nor clamps
the width, nor skips the windowing step: it applies
`_apply_window_level` as-is, reaching the division
`(windowed - min_val) / (max_val - min_val)` with
`max_val - min_val = 0` (NaN in the float source, the junk value 0 in
the ℚ model), which collapses the two distinct samples 0 and 200 to the
same output value; in particular the result differs from the min/max
passthrough the claim mandates as fallback. -/
theorem read_dicom_zero_width_divides :
    read_dicom dsWidthZero =
        .ok ((apply_window_level dsWidthZero.pixelData 100 0).map
          (fun r => r.map (fun v => (Nat.cast v : ℚ)))) ∧
    windowPixel 100 0 0 = windowPixel 100 0 200 ∧
    read_dicom dsWidthZero ≠ .ok dsWidthZero.pixelData := by
  refine ⟨rfl, ?_, ?_⟩
  · norm_num [windowPixel, toUint8, npClip, min_def, max_def]
  · have h0 : windowPixel 100 0 0 = 0 := by
      norm_num [windowPixel, toUint8, npClip, min_def, max_def]
    have h200 : windowPixel 100 0 200 = 0 := by
      norm_num [windowPixel, toUint8, npClip, min_def, max_def]
    simp [read_dicom, dsWidthZero, resolveFirst, apply_window_level, Bind.bind, Except.bind, h0, h200]

/-- C4. For a DICOM dataset whose photometric interpretation is
MONOCHROME1, the decoded array is `np.max(pixel_array) - pixel_array`:
every sample `v` becomes `m - v` with `m` the array maximum, so the
relative intensity ordering is exactly reversed; when the tag is absent
or holds any other value, no inversion is applied. -/
theorem read_dicom_monochrome1_inversion
    (px : List (List ℚ)) (hne : matVals px ≠ []) :
    ∃ m, npMax (matVals px) = some m ∧
      read_dicom ⟨some "MONOCHROME1", none, none, px⟩ =
        .ok (px.map (fun r => r.map (fun v => m - v))) ∧
      (∀ a b : ℚ, a ≤ b ↔ m - b ≤ m - a) ∧
      (∀ pm : Option String, pm ≠ some "MONOCHROME1" →
        read_dicom ⟨pm, none, none, px⟩ = .ok px) := by
  obtain ⟨m, hm⟩ := npMax_of_ne_nil _ hne
  refine ⟨m, hm, ?_, ?_, ?_⟩
  · simp [read_dicom, Bind.bind, Except.bind, hm]
  · intro a b
    constructor <;> intro h <;> linarith
  · intro pm hpm
    match pm with
    | none => simp [read_dicom, Bind.bind, Except.bind]
    | some s =>
        have hs : s ≠ "MONOCHROME1" := by
          intro h; exact hpm (by rw [h])
        simp [read_dicom, Bind.bind, Except.bind, hs]

/-- Witness for C4 at the concrete dataset `[[1, 3]]`: maximum 3,
inverted array `[[2, 0]]`. -/
theorem read_dicom_monochrome1_inversion_witness :
    matVals [[(1 : ℚ), 3]] ≠ [] ∧
      ∃ m, npMax (matVals [[(1 : ℚ), 3]]) = some m ∧
        read_dicom ⟨some "MONOCHROME1", none, none, [[(1 : ℚ), 3]]⟩ =
          .ok ([[(1 : ℚ), 3]].map (fun r => r.map (fun v => m - v))) ∧
        (∀ a b : ℚ, a ≤ b ↔ m - b ≤ m - a) ∧
        (∀ pm : Option String, pm ≠ some "MONOCHROME1" →
          read_dicom ⟨pm, none, none, [[(1 : ℚ), 3]]⟩ = .ok [[(1 : ℚ), 3]]) :=
  ⟨by simp [matVals],
   read_dicom_monochrome1_inversion [[(1 : ℚ), 3]] (by simp [matVals])⟩

/-- C7. `_is_dicom_file` is a total function of the path and the
header-parse outcome (every parse exception is caught, so it never
raises): when the lower-cased filename extension is `.dcm` it classifies
as DICOM immediately and its result does not depend on the file content
(the parse outcome); otherwise a successful header parse classifies as
DICOM and any parse failure classifies as raster. -/
theorem is_dicom_file_classification
    (p : String) (hp hp2 : Except String DicomDS) (ds : DicomDS) (e : String) :
    (splitextExt (strLower p).toList = ".dcm".toList →
        is_dicom_file p hp = true ∧ is_dicom_file p hp = is_dicom_file p hp2) ∧
    (splitextExt (strLower p).toList ≠ ".dcm".toList →
        is_dicom_file p (.ok ds) = true ∧ is_dicom_file p (.error e) = false) := by
  constructor
  · intro h
    simp only [is_dicom_file, if_pos h]
    exact ⟨trivial, trivial⟩
  · intro h
    simp only [is_dicom_file, if_neg h]
    exact ⟨trivial, trivial⟩

/-- Witness for C7: `scan.dcm` is classified DICOM even though its
header does not parse; `scan.png` follows the parse outcome. -/
theorem is_dicom_file_classification_witness :
    is_dicom_file "scan.dcm" (.error "not dicom") = true ∧
    is_dicom_file "scan.png" (.ok ⟨none, none, none, []⟩) = true ∧
    is_dicom_file "scan.png" (.error "bad header") = false :=
  ⟨((is_dicom_file_classification "scan.dcm" (.error "not dicom")
      (.error "not dicom") ⟨none, none, none, []⟩ "e").1 (by decide)).1,
   ((is_dicom_file_classification "scan.png" (.error "x") (.error "x")
      ⟨none, none, none, []⟩ "bad header").2 (by decide)).1,
   ((is_dicom_file_classification "scan.png" (.error "x") (.error "x")
      ⟨none, none, none, []⟩ "bad header").2 (by decide)).2⟩

/-- C10. Extension matching is case-insensitive: `_is_dicom_file` lowers
the whole path before `os.path.splitext`, so any path whose extension is
`.dcm` under any letter casing takes the fast path — classified DICOM
with a result independent of the header-parse outcome (no content
read). -/
theorem is_dicom_file_case_insensitive
    (p : String) (hp hp2 : Except String DicomDS)
    (h : splitextExt (strLower p).toList = ".dcm".toList) :
    is_dicom_file p hp = true ∧ is_dicom_file p hp = is_dicom_file p hp2 := by
  simp only [is_dicom_file, if_pos h]
  exact ⟨trivial, trivial⟩

/-- Witness for C10 at the mixed-case path `chest.DcM`. -/
theorem is_dicom_file_case_insensitive_witness :
    splitextExt (strLower "chest.DcM").toList = ".dcm".toList ∧
    is_dicom_file "chest.DcM" (.error "cannot parse") = true ∧
    is_dicom_file "chest.DcM" (.error "cannot parse") =
      is_dicom_file "chest.DcM" (.ok ⟨none, none, none, []⟩) :=
  ⟨by decide,
   (is_dicom_file_case_insensitive "chest.DcM" (.error "cannot parse")
      (.ok ⟨none, none, none, []⟩) (by decide)).1,
   (is_dicom_file_case_insensitive "chest.DcM" (.error "cannot parse")
      (.ok ⟨none, none, none, []⟩) (by decide)).2⟩

/-- C3, counterexample. The claim quantifies over every nonzero width,
but for the negative width `-2` (center 0) a sample equal to
`low = center - width/2 = 1` maps to 255, not 0: with a negative width
`min_val > max_val`, so `np.clip` collapses everything to `max_val` and
the rescale sends it to 255. -/
theorem window_negative_width_low_not_zero :
    ((-2 : ℚ) ≠ 0) ∧
    apply_window_level [[0 - (-2 : ℚ) / 2]] 0 (-2) = [[255]] ∧
    apply_window_level [[0 - (-2 : ℚ) / 2]] 0 (-2) ≠ [[0]] := by
  have h : windowPixel 0 (-2) 1 = 255 := by
    norm_num [windowPixel, toUint8, npClip, min_def, max_def]
    rfl
  refine ⟨by norm_num, ?_, ?_⟩
  · norm_num [apply_window_level, h]
  · norm_num [apply_window_level, h]

/-- C3, amended to positive widths. For every center and every positive
width, `_apply_window_level` maps `windowPixel` over the array; a sample
at or below `low = center - width/2` maps to 0, a sample at or above
`high = center + width/2` maps to 255, a sample inside the window is
rescaled linearly by `(x - low) / (high - low) * 255` and cast to uint8,
and every output fits in 8 bits. -/
theorem apply_window_level_pos_width_spec
    (image : List (List ℚ)) (center width : ℚ) (hw : 0 < width) :
    apply_window_level image center width =
        image.map (fun r => r.map (windowPixel center width)) ∧
    (∀ x : ℚ, x ≤ center - width / 2 → windowPixel center width x = 0) ∧
    (∀ x : ℚ, center + width / 2 ≤ x → windowPixel center width x = 255) ∧
    (∀ x : ℚ, center - width / 2 ≤ x → x ≤ center + width / 2 →
        windowPixel center width x =
          toUint8 ((x - (center - width / 2)) /
            (center + width / 2 - (center - width / 2)) * 255)) ∧
    (∀ x : ℚ, windowPixel center width x ≤ 255) := by
  refine ⟨rfl, ?_, ?_, ?_, ?_⟩
  · exact fun x hx => wp_below center width x (le_of_lt hw) hx
  · exact fun x hx => wp_above center width x hw hx
  · intro x h1 h2
    have h : center + width / 2 - (center - width / 2) = width := by ring
    rw [h]
    exact wp_inside center width x h1 h2
  · exact fun x => toUint8_le255 _

/-- Witness for amended C3 at center 0, width 2: the sample at
`low = -1` maps to 0. -/
theorem apply_window_level_pos_width_spec_witness :
    (0 : ℚ) < 2 ∧ windowPixel 0 2 (-1) = 0 :=
  ⟨by norm_num,
   (apply_window_level_pos_width_spec [] 0 2 (by norm_num)).2.1 (-1) (by norm_num)⟩

/-- C9, counterexample. Windowing an 8-bit array with center and width
taken from its own min and max is not the identity: for `[[100, 200]]`
(min 100, max 200, center 150, width 100) the transform stretches the
array to `[[0, 255]]`, far beyond rounding error. -/
theorem window_self_minmax_not_identity :
    apply_window_level [[(100 : ℚ), 200]] ((100 + 200) / 2) (200 - 100) = [[0, 255]] ∧
    apply_window_level [[(100 : ℚ), 200]] ((100 + 200) / 2) (200 - 100) ≠
      [[100, 200]] := by
  have h1 : windowPixel ((100 + 200) / 2) (200 - 100) 100 = 0 := by
    norm_num [windowPixel, toUint8, npClip, min_def, max_def]
  have h2 : windowPixel ((100 + 200) / 2) (200 - 100) 200 = 255 := by
    norm_num [windowPixel, toUint8, npClip, min_def, max_def]
    rfl
  exact ⟨by simp [apply_window_level, h1, h2], by simp [apply_window_level, h1, h2]⟩

/-- C9, amended. For an 8-bit array that attains both 0 and 255 (its min
is 0 and its max is 255), windowing with the center `(min+max)/2` and
width `max - min` derived from the array itself returns the array
exactly unchanged. -/
theorem window_full_range_identity
    (img : List (List ℕ))
    (hvals : ∀ r ∈ img, ∀ v ∈ r, v ≤ 255)
    (hmin : npMin (matVals (read_standard_image img)) = some 0)
    (hmax : npMax (matVals (read_standard_image img)) = some 255) :
    apply_window_level (read_standard_image img) ((0 + 255) / 2) (255 - 0) = img := by
  clear hmin hmax
  unfold apply_window_level read_standard_image
  induction img with
  | nil => rfl
  | cons r rest ih =>
      simp only [List.map_cons, List.cons.injEq]
      constructor
      · exact row_fullrange_id r (hvals r (List.mem_cons_self r rest))
      · exact ih (fun r2 hr2 => hvals r2 (List.mem_cons_of_mem r hr2))

/-- Witness for amended C9 at `[[0, 255]]`. -/
theorem window_full_range_identity_witness :
    (∀ r ∈ [[0, 255]], ∀ v ∈ r, v ≤ 255) ∧
    npMin (matVals (read_standard_image [[0, 255]])) = some 0 ∧
    npMax (matVals (read_standard_image [[0, 255]])) = some 255 ∧
    apply_window_level (read_standard_image [[0, 255]]) ((0 + 255) / 2) (255 - 0) =
      [[0, 255]] := by
  have h1 : ∀ r ∈ [[0, 255]], ∀ v ∈ r, v ≤ 255 := by decide
  have h2 : npMin (matVals (read_standard_image [[0, 255]])) = some 0 := by
    norm_num [npMin, matVals, read_standard_image, min_def]
  have h3 : npMax (matVals (read_standard_image [[0, 255]])) = some 255 := by
    norm_num [npMax, matVals, read_standard_image, max_def]
  exact ⟨h1, h2, h3, window_full_range_identity [[0, 255]] h1 h2 h3⟩

/-! ## Flat images through the normalizer (towards C5) -/

theorem cvRound_zero : cvRound 0 = 0 := by
  norm_num [cvRound]

/-- `getD` of an all-zero row is 0 whatever the index. -/
theorem getD_zero_of_all (r : List ℕ) (h : ∀ v ∈ r, v = 0) (j : ℕ) :
    r.getD j 0 = 0 := by
  rcases lt_or_ge j r.length with hlt | hge
  · rw [List.getD_eq_getElem r 0 hlt]
    exact h _ (List.getElem_mem hlt)
  · exact List.getD_eq_default r 0 hge

/-- Any row fetched from an all-zero matrix is all-zero. -/
theorem row_zero_of_all (W : List (List ℕ)) (h : ∀ r ∈ W, ∀ v ∈ r, v = 0)
    (i : ℕ) : ∀ v ∈ W.getD i [], v = 0 := by
  rcases lt_or_ge i W.length with hlt | hge
  · rw [List.getD_eq_getElem W [] hlt]
    exact h _ (List.getElem_mem hlt)
  · rw [List.getD_eq_default W [] hge]
    intro v hv
    exact absurd hv (List.not_mem_nil v)

/-- Border-replicated pixel fetch from an all-zero matrix gives 0. -/
theorem getPx_zeros (W : List (List ℕ)) (h : ∀ r ∈ W, ∀ v ∈ r, v = 0)
    (y x : ℤ) : getPx W y x = 0 := by
  unfold getPx
  exact getD_zero_of_all _ (row_zero_of_all W h _) _

/-- The Gaussian blur of an all-zero matrix is 0 at every sample. -/
theorem blurAt_zeros (W : List (List ℕ)) (h : ∀ r ∈ W, ∀ v ∈ r, v = 0)
    (y x : ℕ) : blurAt W y x = 0 := by
  simp [blurAt, getPx_zeros W h, cvRound_zero]

/-- An all-zero row is fixed by mapping the constant-zero function. -/
theorem map_zero_id (r : List ℕ) (h : ∀ v ∈ r, v = 0) :
    r.map (fun _ => (0 : ℕ)) = r := by
  induction r with
  | nil => rfl
  | cons a l ih =>
      simp only [List.map_cons, List.cons.injEq]
      exact ⟨(h a (List.mem_cons_self a l)).symm,
        ih (fun v hv => h v (List.mem_cons_of_mem a hv))⟩

/-- An all-zero matrix is fixed by mapping the constant-zero function
over every row. -/
theorem mapmap_zero_id (W : List (List ℕ)) (hz : ∀ r ∈ W, ∀ v ∈ r, v = 0) :
    W.map (fun r => r.map (fun _ => (0 : ℕ))) = W := by
  induction W with
  | nil => rfl
  | cons r rest ih =>
      simp only [List.map_cons, List.cons.injEq]
      exact ⟨map_zero_id r (hz r (List.mem_cons_self r rest)),
        ih (fun r2 hr2 v hv => hz r2 (List.mem_cons_of_mem r hr2) v hv)⟩

/-- `cv2.equalizeHist` fixes a nonempty all-zero matrix: the first
non-empty bin is 0 and contains every sample, so OpenCV takes the
constant branch `dst.setTo(0)`. -/
theorem equalizeHist_zeros (W : List (List ℕ))
    (hz : ∀ r ∈ W, ∀ v ∈ r, v = 0) (hne : matTotal W ≠ 0) :
    equalizeHist W = W := by
  have hcount : matCount W 0 = matTotal W := by
    unfold matCount matTotal
    congr 1
    apply List.map_congr_left
    intro r hr
    exact List.count_eq_length.mpr (fun b hb => (hz r hr b hb).symm)
  have hp0 : (fun v => matCount W v != 0) 0 = true := by
    simp [hcount, hne]
  have hfind : (List.range 256).find? (fun v => matCount W v != 0) = some 0 := by
    rw [List.range_succ_eq_map 255]
    exact List.find?_cons_of_pos _ hp0
  unfold equalizeHist
  rw [hfind]
  simp only [if_pos hcount]
  exact mapmap_zero_id W hz

/-- The 3×3 Gaussian blur fixes an all-zero matrix. -/
theorem gaussianBlur3_zeros (W : List (List ℕ))
    (hz : ∀ r ∈ W, ∀ v ∈ r, v = 0) : gaussianBlur3 W = W := by
  apply List.ext_getElem
  · simp [gaussianBlur3]
  · intro i h1 h2
    simp only [gaussianBlur3, List.getElem_map, List.getElem_range]
    have hrow : W.getD i [] = W[i] := List.getD_eq_getElem W [] h2
    have hzi : ∀ v ∈ W[i], v = 0 := fun v hv => hz _ (List.getElem_mem h2) v hv
    simp only [blurAt_zeros W hz, List.map_const', List.length_range, hrow]
    exact (List.eq_replicate_of_mem hzi).symm

/-- `_normalize_ct_image` on a flat image (max = min): the min/max branch
produces `np.zeros_like`, equalization and blur fix the zero matrix, so
the result is the all-zero array of the same shape — no exception, no
division by zero. -/
theorem normalize_flat (image : List (List ℚ)) (hne : matVals image ≠ [])
    (heq : npMax (matVals image) = npMin (matVals image)) :
    normalize_ct_image image = .ok (image.map (fun r => r.map (fun _ => 0))) := by
  obtain ⟨mx, hmx⟩ := npMax_of_ne_nil _ hne
  have hmn : npMin (matVals image) = some mx := by rw [← heq]; exact hmx
  have hz : ∀ r ∈ image.map (fun r => r.map (fun _ => (0 : ℕ))), ∀ v ∈ r, v = 0 := by
    intro r hr v hv
    obtain ⟨r0, _, rfl⟩ := List.mem_map.mp hr
    obtain ⟨v0, _, hv1⟩ := List.mem_map.mp hv
    exact hv1.symm
  have htot : matTotal (image.map (fun r => r.map (fun _ => (0 : ℕ)))) ≠ 0 := by
    unfold matTotal
    rw [List.map_map]
    simp only [Function.comp_def, List.length_map]
    rw [← List.length_flatten]
    intro hcon
    exact hne (List.length_eq_zero.mp hcon)
  unfold normalize_ct_image
  rw [hmx, hmn]
  dsimp only
  rw [if_neg (lt_irrefl mx)]
  simp only [List.map_map, Function.comp_def, toUint8_zero]
  rw [equalizeHist_zeros _ hz htot, gaussianBlur3_zeros _ hz]

/-- C5. For every non-empty 2-D array whose maximum equals its minimum
(a flat image), `_normalize_ct_image` returns the all-zero array of the
same shape; it neither raises nor divides by zero — the `max > min` test
routes the flat case to `np.zeros_like`, avoiding the stretch division
entirely. -/
theorem normalize_flat_image_all_zero (image : List (List ℚ))
    (hne : matVals image ≠ [])
    (heq : npMax (matVals image) = npMin (matVals image)) :
    normalize_ct_image image = .ok (image.map (fun r => r.map (fun _ => 0))) :=
  normalize_flat image hne heq

/-- Witness for C5 at the flat 2×2-ish array `[[7, 7], [7]]`. -/
theorem normalize_flat_image_all_zero_witness :
    matVals [[(7 : ℚ), 7], [7]] ≠ [] ∧
    npMax (matVals [[(7 : ℚ), 7], [7]]) = npMin (matVals [[(7 : ℚ), 7], [7]]) ∧
    normalize_ct_image [[(7 : ℚ), 7], [7]] = .ok [[0, 0], [0]] := by
  have h1 : matVals [[(7 : ℚ), 7], [7]] ≠ [] := by simp [matVals]
  have h2 : npMax (matVals [[(7 : ℚ), 7], [7]]) = npMin (matVals [[(7 : ℚ), 7], [7]]) := by
    simp [npMax, npMin, matVals, max_self, min_self]
  refine ⟨h1, h2, ?_⟩
  have h3 := normalize_flat_image_all_zero [[(7 : ℚ), 7], [7]] h1 h2
  simpa using h3

/-! ## Base64 and PNG header facts (towards C1) -/

theorem b64Val_b64Char : ∀ n < 64, b64Val (b64Char n) = some n := by decide

theorem b64Char_ne_pad : ∀ n < 64, b64Char n ≠ '=' := by decide

/-- Unfolding equation of `base64Decode` on a leading quartet. -/
theorem base64Decode_cons4 (c1 c2 c3 c4 : Char) (rest : List Char) :
    base64Decode (c1 :: c2 :: c3 :: c4 :: rest) =
      if c3 = '=' then
        if c4 = '=' ∧ rest = [] then
          match b64Val c1, b64Val c2 with
          | some v1, some v2 => some [v1 * 4 + v2 / 16]
          | _, _ => none
        else none
      else if c4 = '=' then
        if rest = [] then
          match b64Val c1, b64Val c2, b64Val c3 with
          | some v1, some v2, some v3 =>
              some [v1 * 4 + v2 / 16, v2 % 16 * 16 + v3 / 4]
          | _, _, _ => none
        else none
      else
        match b64Val c1, b64Val c2, b64Val c3, b64Val c4, base64Decode rest with
        | some v1, some v2, some v3, some v4, some tail =>
            some ([v1 * 4 + v2 / 16, v2 % 16 * 16 + v3 / 4, v3 % 4 * 64 + v4] ++ tail)
        | _, _, _, _, _ => none := rfl

/-- Base64 decoding inverts base64 encoding on byte lists. -/
theorem base64_roundtrip : ∀ (l : List ℕ), (∀ b ∈ l, b < 256) →
    base64Decode (base64Encode l) = some l
  | [] => fun _ => rfl
  | [a] => fun h => by
      have ha : a < 256 := h a (by simp)
      rw [show base64Encode [a] =
        [b64Char (a / 4), b64Char (a % 4 * 16), '=', '='] from rfl]
      rw [base64Decode_cons4, if_pos rfl, if_pos ⟨rfl, rfl⟩,
        b64Val_b64Char (a / 4) (by omega), b64Val_b64Char (a % 4 * 16) (by omega)]
      simp only [Option.some.injEq, List.cons.injEq, and_true]
      omega
  | [a, b] => fun h => by
      have ha : a < 256 := h a (by simp)
      have hb : b < 256 := h b (by simp)
      rw [show base64Encode [a, b] =
        [b64Char (a / 4), b64Char (a % 4 * 16 + b / 16), b64Char (b % 16 * 4), '='] from rfl]
      rw [base64Decode_cons4, if_neg (b64Char_ne_pad (b % 16 * 4) (by omega)),
        if_pos rfl, if_pos rfl,
        b64Val_b64Char (a / 4) (by omega),
        b64Val_b64Char (a % 4 * 16 + b / 16) (by omega),
        b64Val_b64Char (b % 16 * 4) (by omega)]
      simp only [Option.some.injEq, List.cons.injEq, and_true]
      omega
  | a :: b :: c :: rest => fun h => by
      have ha : a < 256 := h a (by simp)
      have hb : b < 256 := h b (by simp)
      have hc : c < 256 := h c (by simp)
      have ih := base64_roundtrip rest (fun x hx => h x (by simp [hx]))
      rw [show base64Encode (a :: b :: c :: rest) =
        b64Char (a / 4) :: b64Char (a % 4 * 16 + b / 16) ::
          b64Char (b % 16 * 4 + c / 64) :: b64Char (c % 64) :: base64Encode rest from rfl]
      rw [base64Decode_cons4,
        if_neg (b64Char_ne_pad (b % 16 * 4 + c / 64) (by omega)),
        if_neg (b64Char_ne_pad (c % 64) (by omega)),
        b64Val_b64Char (a / 4) (by omega),
        b64Val_b64Char (a % 4 * 16 + b / 16) (by omega),
        b64Val_b64Char (b % 16 * 4 + c / 64) (by omega),
        b64Val_b64Char (c % 64) (by omega), ih]
      simp only [List.cons_append, List.nil_append, Option.some.injEq,
        List.cons.injEq, and_true]
      omega

/-- Every byte of a big-endian 32-bit field is below 256. -/
theorem mem_be32_lt (n : ℕ) : ∀ b ∈ be32 n, b < 256 := by
  intro b hb
  simp only [be32, List.mem_cons, List.not_mem_nil, or_false] at hb
  rcases hb with rfl | rfl | rfl | rfl <;> exact Nat.mod_lt _ (by norm_num)

/-- Every byte of the modelled IHDR chunk is below 256. -/
theorem mem_ihdr_lt (w h : ℕ) : ∀ b ∈ ihdrChunk w h, b < 256 := by
  simp only [ihdrChunk, List.forall_mem_append]
  exact ⟨⟨⟨⟨⟨by decide, by decide⟩, mem_be32_lt w⟩, mem_be32_lt h⟩, by decide⟩, by decide⟩

/-- Every byte of the modelled PNG stream is below 256. -/
theorem pngEncode_lt256 (img : List (List ℕ)) : ∀ b ∈ pngEncode img, b < 256 := by
  simp only [pngEncode, List.forall_mem_append]
  exact ⟨⟨by decide, mem_ihdr_lt _ _⟩, by decide⟩

/-- The width field of the modelled PNG stream is the IHDR width. -/
theorem pngWidth_encode (img : List (List ℕ)) :
    pngWidth (pngEncode img) = parseBe32 (be32 (pilSize img).1) := rfl

/-- The height field of the modelled PNG stream is the IHDR height. -/
theorem pngHeight_encode (img : List (List ℕ)) :
    pngHeight (pngEncode img) = parseBe32 (be32 (pilSize img).2) := rfl

/-- The resampler always produces a 512×512 grid. -/
theorem pilSize_resize512 (img : List (List ℕ)) :
    pilSize (resize512 img) = (512, 512) := rfl

/-- The image handed to the PNG serializer by `read_and_normalize` is
512×512 whether or not the resize branch fires. -/
theorem resized_is512 (m : List (List ℕ)) :
    pilSize (if pilSize m ≠ (512, 512) then resize512 m else m) = (512, 512) := by
  by_cases h : pilSize m = (512, 512)
  · simp [h]
  · simp [h, pilSize_resize512]

/-- Inversion of a successful `Except` bind. -/
theorem except_bind_ok {α β : Type} (x : Except String α) (g : α → Except String β)
    (b : β) (h : x >>= g = .ok b) : ∃ a, x = .ok a ∧ g a = .ok b := by
  cases x with
  | ok a => exact ⟨a, rfl, h⟩
  | error e => simp [Bind.bind, Except.bind] at h

/-- `_pil_to_base64` of a 512×512 image is the data-URI payload the spec
describes: the media marker followed by the base64 encoding of a PNG
stream whose header carries resolution 512×512. -/
theorem payload_spec (m : List (List ℕ)) (hdim : pilSize m = (512, 512)) :
    ∃ bytes : List ℕ,
      pil_to_base64 m = "data:image/png;base64," ++ String.mk (base64Encode bytes) ∧
      base64Decode (base64Encode bytes) = some bytes ∧
      isPngStream bytes ∧ pngWidth bytes = 512 ∧ pngHeight bytes = 512 := by
  refine ⟨pngEncode m, rfl, base64_roundtrip _ (pngEncode_lt256 m), ⟨rfl, rfl⟩, ?_, ?_⟩
  · rw [pngWidth_encode, hdim]
    decide
  · rw [pngHeight_encode, hdim]
    decide

/-- C1. Every successful run of `read_and_normalize` returns a string of
the form `data:image/png;base64,<b64>` where `<b64>` base64-decodes back
to the PNG byte stream it encodes, the stream is a valid PNG (signature
plus IHDR), and the IHDR resolution is exactly 512×512 — regardless of
the input resolution or aspect ratio. -/
theorem read_and_normalize_payload (f : InputFile) (s : String)
    (h : read_and_normalize f = .ok s) :
    ∃ bytes : List ℕ,
      s = "data:image/png;base64," ++ String.mk (base64Encode bytes) ∧
      base64Decode (base64Encode bytes) = some bytes ∧
      isPngStream bytes ∧ pngWidth bytes = 512 ∧ pngHeight bytes = 512 := by
  have tail : ∀ (arr : List (List ℚ)),
      (normalize_ct_image arr >>= fun nm =>
        Except.ok (pil_to_base64 (if pilSize nm ≠ (512, 512) then resize512 nm else nm))) =
          .ok s →
      ∃ bytes : List ℕ,
        s = "data:image/png;base64," ++ String.mk (base64Encode bytes) ∧
        base64Decode (base64Encode bytes) = some bytes ∧
        isPngStream bytes ∧ pngWidth bytes = 512 ∧ pngHeight bytes = 512 := by
    intro arr harr
    obtain ⟨nm, h3, h4⟩ := except_bind_ok _ _ _ harr
    have hs : s = pil_to_base64 (if pilSize nm ≠ (512, 512) then resize512 nm else nm) := by
      injection h4 with h5
      exact h5.symm
    rw [hs]
    exact payload_spec _ (resized_is512 nm)
  rcases f with ds | gray | msg
  · simp only [read_and_normalize] at h
    obtain ⟨arr, h1, h2⟩ := except_bind_ok _ _ _ h
    exact tail arr h2
  · simp only [read_and_normalize] at h
    obtain ⟨arr, h1, h2⟩ := except_bind_ok _ _ _ h
    exact tail arr h2
  · simp only [read_and_normalize] at h
    exact absurd h (by simp [Bind.bind, Except.bind])

/-- Witness for C1: the 1×1 raster input `[[5]]` runs the whole pipeline
(flat image → zero 1×1 array → resize to 512×512 → PNG → base64) and the
resulting payload satisfies the specification. -/
theorem read_and_normalize_payload_witness :
    read_and_normalize (.rasterFile [[5]]) =
      .ok "data:image/png;base64,iVBORw0KGgoAAAANSUhEUgAAAgAAAAIACAAAAAAAAAAAAAAAAElFTkSuQmCC" ∧
    ∃ bytes : List ℕ,
      "data:image/png;base64,iVBORw0KGgoAAAANSUhEUgAAAgAAAAIACAAAAAAAAAAAAAAAAElFTkSuQmCC" =
        "data:image/png;base64," ++ String.mk (base64Encode bytes) ∧
      base64Decode (base64Encode bytes) = some bytes ∧
      isPngStream bytes ∧ pngWidth bytes = 512 ∧ pngHeight bytes = 512 := by
  have hne : matVals (read_standard_image [[5]]) ≠ [] := by
    simp [matVals, read_standard_image]
  have heq : npMax (matVals (read_standard_image [[5]])) =
      npMin (matVals (read_standard_image [[5]])) := by
    simp [npMax, npMin, matVals, read_standard_image]
  have hn := normalize_flat (read_standard_image [[5]]) hne heq
  have hz : (read_standard_image [[5]]).map (fun r => r.map (fun _ => (0 : ℕ))) =
      [[0]] := by
    simp [read_standard_image]
  rw [hz] at hn
  have hmain : read_and_normalize (.rasterFile [[5]]) =
      .ok "data:image/png;base64,iVBORw0KGgoAAAANSUhEUgAAAgAAAAIACAAAAAAAAAAAAAAAAElFTkSuQmCC" := by
    unfold read_and_normalize
    dsimp only [Bind.bind, Except.bind]
    rw [hn]
    rfl
  exact ⟨hmain, read_and_normalize_payload (.rasterFile [[5]]) _ hmain⟩

end ImageProc
